import Mathlib

/-!
Shallow embedding of the merged-PR collection core of `github-pr-grabber`
(`src/list.go`), with the external `gh` CLI call (`src/github.go`,
`runGHCommand`) abstracted as a backend function supplied to every
definition.

Modelling conventions:
* Time instants are integers counting nanoseconds since the Unix epoch,
  matching the resolution of Go's `time.Time` / `time.Duration`.
* `fetchPRsForDateRange` formats both interval endpoints with the layout
  `"2006-01-02"`, i.e. at day granularity, before building the search
  query.  That format is injective on civil days, so the backend is
  modelled as a function of the repository, the search term and the two
  day numbers.
* The backend's raw stdout is consumed by `strings.Split(output, "\n")`
  in `list.go`; as splitting on newlines and re-joining are mutually
  inverse, the output is modelled directly as its list of lines.  The
  per-line parsing (tab split, 4-field check) is embedded faithfully.
* Go code mutates `seenPRs` and `allPRs` through a map and a pointer and
  separately returns an error value; the embedding passes an explicit
  `CollectState` and returns the updated state together with an optional
  error, so that mutations performed before a failure survive it, exactly
  as in the source.
-/

/-- PR record (src/list.go lines 12-17).  All four fields are strings, as
produced by the `--jq` TSV projection of `gh pr list`. -/
structure PR where
  Number : String
  Title : String
  MergedAt : String
  URL : String
deriving DecidableEq

/-- Nanoseconds per second, Go `time.Second`. -/
def nsPerSecond : Int := 1000000000

/-- Nanoseconds per day, Go `24 * time.Hour`. -/
def nsPerDay : Int := 86400 * nsPerSecond

/-- Civil day number of an instant: Go's `Format("2006-01-02")` renders the
civil date of the instant, which (for UTC) is the floor of `t / nsPerDay`;
`/` on `Int` is floor division for this positive divisor. -/
def dayOf (t : Int) : Int := t / nsPerDay

/-- Day count since 1970-01-01 of the civil date `(y, m, d)`, proleptic
Gregorian; the day component enters linearly, so day overflow (e.g.
January 32) normalises exactly as Go's `time.Date` constructor does. -/
def daysFromCivil (y m d : Int) : Int :=
  let y1 := if m ≤ 2 then y - 1 else y
  let era := Int.fdiv y1 400
  let yoe := y1 - era * 400
  let mp := Int.fmod (m + 9) 12
  let doy := Int.fdiv (153 * mp + 2) 5 + d - 1
  let doe := yoe * 365 + Int.fdiv yoe 4 - Int.fdiv yoe 100 + doy
  era * 146097 + doe - 719468

/-- Civil date `(y, m, d)` of a day count since 1970-01-01, inverse of
`daysFromCivil` on valid dates (proleptic Gregorian, as in Go's
`time` package). -/
def civilFromDays (z : Int) : Int × Int × Int :=
  let z2 := z + 719468
  let era := Int.fdiv z2 146097
  let doe := z2 - era * 146097
  let yoe := Int.fdiv (doe - Int.fdiv doe 1460 + Int.fdiv doe 36524 - Int.fdiv doe 146096) 365
  let y := yoe + era * 400
  let doy := doe - (365 * yoe + Int.fdiv yoe 4 - Int.fdiv yoe 100)
  let mp := Int.fdiv (5 * doy + 2) 153
  let d := doy - Int.fdiv (153 * mp + 2) 5 + 1
  let m := if mp < 10 then mp + 3 else mp - 9
  (if m ≤ 2 then y + 1 else y, m, d)

/-- Go `t.AddDate(0, 1, 0)` (src/list.go line 141): add one calendar month,
normalising month overflow (December to January of the next year) and day
overflow exactly as Go's `time.Date` normalisation, keeping the clock. -/
def addOneMonth (t : Int) : Int :=
  let days := Int.fdiv t nsPerDay
  let rem := t - days * nsPerDay
  match civilFromDays days with
  | (y, m, d) =>
    let y2 := if m = 12 then y + 1 else y
    let m2 := if m = 12 then 1 else m + 1
    daysFromCivil y2 m2 d * nsPerDay + rem

/-- Abstraction of `runGHCommand` (src/github.go): one `gh pr list` query,
keyed by repository, search term and the two day-formatted interval
endpoints; it yields the lines of the command's stdout, or a failure. -/
def Backend : Type := String → String → Int → Int → Except String (List String)

/-- Go `strings.Split(line, "\t")` (src/list.go line 49): split around every
tab; `n` tabs yield `n + 1` fields, empty fields preserved. -/
def splitTabs : List Char → List (List Char)
  | [] => [[]]
  | c :: rest =>
    if c = '\t' then
      [] :: splitTabs rest
    else
      match splitTabs rest with
      | [] => [[c]]
      | f :: fs => (c :: f) :: fs

/-- One line of backend output, parsed as in src/list.go lines 45-59: empty
lines are skipped, lines that do not split into exactly 4 tab-separated
fields are skipped, and otherwise the 4 fields become a PR record. -/
def parseLine (line : String) : Option PR :=
  if line = "" then none
  else
    match (splitTabs line.data).map String.mk with
    | [a, b, c, d] => some ⟨a, b, c, d⟩
    | _ => none

/-- Whole-output parse: the loop of src/list.go lines 44-60. -/
def parsePRs (lines : List String) : List PR := lines.filterMap parseLine

/-- src/list.go lines 20-63, `fetchPRsForDateRange`: query the backend over
the day-formatted interval, parse the response, and return the records
together with their count, which the source computes as `len(prs)`. -/
def fetchPRsForDateRange (B : Backend) (repo searchTerm : String)
    (startDate endDate : Int) : Except String (List PR × Nat) :=
  match B repo searchTerm (dayOf startDate) (dayOf endDate) with
  | .error e => .error e
  | .ok out => .ok (parsePRs out, (parsePRs out).length)

/-- Collection-run state (src/list.go lines 129-132): the set of seen URLs
(`seenPRs`, a `map[string]bool` in the source) and the accumulated result
(`allPRs`). -/
structure CollectState where
  seenPRs : List String
  allPRs : List PR
deriving DecidableEq

/-- Admission of one fetched record (src/list.go lines 108-114): a record is
appended and its URL marked seen iff its URL is not already in the seen
set; otherwise it is discarded. -/
def addPR (st : CollectState) (pr : PR) : CollectState :=
  if pr.URL ∈ st.seenPRs then st
  else ⟨pr.URL :: st.seenPRs, st.allPRs ++ [pr]⟩

/-- Admission of a fetched batch, in order (the loop of lines 108-114). -/
def addPRs (st : CollectState) (prs : List PR) : CollectState :=
  prs.foldl addPR st

/-- Recursion core of `fetchPRsRecursive` (src/list.go lines 66-121),
structurally recursive on the remaining depth budget `r = 11 - depth`: the
source errors exactly when `depth > 10`, i.e. when the budget is 0.
On a saturated response (`count >= 1000`) over an interval of at least one
day, the interval is split at `startDate + duration/2` (Go `Duration`
division truncates; the duration is positive here) and the two halves are
fetched in order, the second starting one second after the midpoint; a
saturated sub-day interval is admitted as-is with only a printed warning. -/
def fetchRec (B : Backend) (repo searchTerm : String) :
    Nat → Int → Int → CollectState → CollectState × Option String
  | 0, _, _, st => (st, some "maximum recursion depth reached for date range")
  | r + 1, startDate, endDate, st =>
    match fetchPRsForDateRange B repo searchTerm startDate endDate with
    | .error e => (st, some ("error fetching PRs: " ++ e))
    | .ok (prs, count) =>
      if 1000 ≤ count then
        if endDate - startDate < nsPerDay then
          (addPRs st prs, none)
        else
          match fetchRec B repo searchTerm r startDate
              (startDate + Int.tdiv (endDate - startDate) 2) st with
          | (st2, some e) => (st2, some e)
          | (st2, none) =>
            fetchRec B repo searchTerm r
              (startDate + Int.tdiv (endDate - startDate) 2 + nsPerSecond) endDate st2
      else (addPRs st prs, none)

/-- src/list.go `fetchPRsRecursive` at a given `depth`: the depth-limit
check `depth > 10` and the `depth+1` recursive calls are realised through
the budget `11 - depth`. -/
def fetchPRsRecursive (B : Backend) (repo searchTerm : String)
    (startDate endDate : Int) (st : CollectState) (depth : Nat) :
    CollectState × Option String :=
  fetchRec B repo searchTerm (11 - depth) startDate endDate st

/-- End of the monthly window starting at `currentStart` (src/list.go lines
141-144): one calendar month later, truncated to `now` when that lies
strictly beyond it (`currentEnd.After(now)`). -/
def windowEnd (now currentStart : Int) : Int :=
  if now < addOneMonth currentStart then now else addOneMonth currentStart

/-- Per-window step of the collection loop (src/list.go lines 151-154): run
the recursive fetch at depth 0 and keep the resulting state; an error is
only logged, so only the state component is propagated. -/
def stepFetch (B : Backend) (repo searchTerm : String)
    (st : CollectState) (w : Int × Int) : CollectState :=
  (fetchPRsRecursive B repo searchTerm w.1 w.2 st 0).1

/-- Monthly chunk loop of `getMergedPRs` (src/list.go lines 138-158) as
explicit fuel recursion (the Go loop needs no fuel because `AddDate`
strictly increases time; theorems about full span coverage carry a
fuel-sufficiency hypothesis instead). -/
def collectLoop (B : Backend) (repo searchTerm : String) (now : Int) :
    Nat → Int → CollectState → CollectState
  | 0, _, st => st
  | fuel + 1, currentStart, st =>
    if currentStart < now then
      collectLoop B repo searchTerm now fuel (windowEnd now currentStart)
        (stepFetch B repo searchTerm st (currentStart, windowEnd now currentStart))
    else st

/-- The list of monthly windows the loop of src/list.go lines 138-158
visits, in order. -/
def monthWindows (now : Int) : Nat → Int → List (Int × Int)
  | 0, _ => []
  | fuel + 1, s =>
    if s < now then (s, windowEnd now s) :: monthWindows now fuel (windowEnd now s)
    else []

/-- src/list.go `getMergedPRs` (lines 127-162): run the monthly loop from
the empty state and return the accumulated records; every return path of
the source returns a nil error, modelled as the constant `none`. -/
def getMergedPRs (B : Backend) (repo searchTerm : String)
    (sinceDate now : Int) (fuel : Nat) : List PR × Option String :=
  ((collectLoop B repo searchTerm now fuel sinceDate ⟨[], []⟩).allPRs, none)

/-- URLs of the accumulated records, in accumulation order. -/
def urls (st : CollectState) : List String := st.allPRs.map PR.URL

/-- Deduplication invariant of a collection state: the accumulated URLs are
pairwise distinct, and the seen set holds exactly those URLs. -/
def DedupInv (st : CollectState) : Prop :=
  (urls st).Nodup ∧ ∀ u, u ∈ st.seenPRs ↔ u ∈ urls st

/-- Test backend answering every query with no output lines. -/
def emptyBackend : Backend := fun _ _ _ _ => .ok []

/-- Test backend whose single window returns two records sharing the PR
number "7" but carrying different URLs. -/
def sameNumberBackend : Backend :=
  fun _ _ _ _ => .ok ["7\ta\tm\tu1", "7\tb\tm\tu2"]

/-- Test backend answering every query with one well-formed record row. -/
def singleRowBackend : Backend := fun _ _ _ _ => .ok ["1\ta\tm\tu1"]

/-- Test backend answering every query with exactly 1000 record rows, i.e.
always saturating the result cap. -/
def saturatedBackend : Backend :=
  fun _ _ _ _ => .ok (List.replicate 1000 "9\tt\tm\tu9")

/-- Test backend that saturates the query over days `[0, 2]` and fails every
other query. -/
def c6Backend : Backend := fun _ _ ds de =>
  if ds = 0 ∧ de = 2 then .ok (List.replicate 1000 "9\tt\tm\tu9") else .error "boom"

/-- Test backend for the midpoint-boundary scenario: the full window over
days `[0, 40]` saturates, its first half `[0, 20]` returns the single
midpoint-merged record, and its second half `[20, 40]` returns nothing. -/
def midSplitBackend : Backend := fun _ _ ds de =>
  if ds = 0 ∧ de = 20 then .ok ["1\tt\tm\tu1"]
  else if ds = 20 ∧ de = 40 then .ok []
  else .ok (List.replicate 1000 "9\tt\tm\tu9")

lemma dedupInv_empty : DedupInv ⟨[], []⟩ := by
  constructor
  · simp [urls]
  · intro u; simp [urls]

lemma addPR_of_seen (st : CollectState) (pr : PR) (h : pr.URL ∈ st.seenPRs) :
    addPR st pr = st := by
  simp [addPR, h]

lemma addPR_of_not_seen (st : CollectState) (pr : PR) (h : pr.URL ∉ st.seenPRs) :
    addPR st pr = ⟨pr.URL :: st.seenPRs, st.allPRs ++ [pr]⟩ := by
  simp [addPR, h]

lemma dedupInv_addPR (st : CollectState) (pr : PR) (h : DedupInv st) :
    DedupInv (addPR st pr) := by
  obtain ⟨h1, h2⟩ := h
  by_cases hs : pr.URL ∈ st.seenPRs
  · rw [addPR_of_seen st pr hs]; exact ⟨h1, h2⟩
  · rw [addPR_of_not_seen st pr hs]
    constructor
    · have hnu : pr.URL ∉ urls st := fun hc => hs ((h2 pr.URL).mpr hc)
      simp only [urls, List.map_append, List.map_cons, List.map_nil]
      rw [List.nodup_append]
      refine ⟨h1, List.nodup_singleton _, ?_⟩
      intro x hx hx2
      simp only [List.mem_singleton] at hx2
      subst hx2
      exact hnu hx
    · intro u
      simp only [urls, List.map_append, List.map_cons, List.map_nil,
        List.mem_cons, List.mem_append, List.mem_singleton]
      rw [h2 u]
      simp only [urls]
      tauto

lemma dedupInv_addPRs (st : CollectState) (l : List PR) (h : DedupInv st) :
    DedupInv (addPRs st l) := by
  induction l generalizing st with
  | nil => exact h
  | cons a l ih =>
    simp only [addPRs, List.foldl_cons]
    exact ih (addPR st a) (dedupInv_addPR st a h)

lemma addPR_allPRs_append (st : CollectState) (pr : PR) :
    ∃ tl, (addPR st pr).allPRs = st.allPRs ++ tl := by
  by_cases hs : pr.URL ∈ st.seenPRs
  · exact ⟨[], by rw [addPR_of_seen st pr hs]; simp⟩
  · exact ⟨[pr], by rw [addPR_of_not_seen st pr hs]⟩

lemma addPRs_allPRs_append (st : CollectState) (l : List PR) :
    ∃ tl, (addPRs st l).allPRs = st.allPRs ++ tl := by
  induction l generalizing st with
  | nil => exact ⟨[], by simp [addPRs]⟩
  | cons a l ih =>
    simp only [addPRs, List.foldl_cons]
    obtain ⟨t1, ht1⟩ := addPR_allPRs_append st a
    obtain ⟨t2, ht2⟩ := ih (addPR st a)
    exact ⟨t1 ++ t2, by simp only [addPRs] at ht2; rw [ht2, ht1, List.append_assoc]⟩

lemma mem_urls_addPR (st : CollectState) (pr : PR) (u : String) (h : DedupInv st) :
    u ∈ urls (addPR st pr) ↔ u ∈ urls st ∨ u = pr.URL := by
  by_cases hs : pr.URL ∈ st.seenPRs
  · rw [addPR_of_seen st pr hs]
    have : pr.URL ∈ urls st := (h.2 pr.URL).mp hs
    constructor
    · exact fun hu => Or.inl hu
    · rintro (hu | rfl)
      · exact hu
      · exact this
  · rw [addPR_of_not_seen st pr hs]
    simp [urls]

lemma mem_urls_addPRs (st : CollectState) (l : List PR) (u : String) (h : DedupInv st) :
    u ∈ urls (addPRs st l) ↔ u ∈ urls st ∨ u ∈ l.map PR.URL := by
  induction l generalizing st with
  | nil => simp [addPRs]
  | cons a l ih =>
    simp only [addPRs, List.foldl_cons] at ih ⊢
    rw [ih (addPR st a) (dedupInv_addPR st a h), mem_urls_addPR st a u h]
    simp only [List.map_cons, List.mem_cons]
    tauto

lemma addPRs_mem_src (st : CollectState) (l : List PR) (pr : PR)
    (h : pr ∈ (addPRs st l).allPRs) : pr ∈ st.allPRs ∨ pr ∈ l := by
  induction l generalizing st with
  | nil => exact Or.inl h
  | cons a l ih =>
    simp only [addPRs, List.foldl_cons] at h
    rcases ih (addPR st a) h with hm | hm
    · by_cases hs : a.URL ∈ st.seenPRs
      · rw [addPR_of_seen st a hs] at hm; exact Or.inl hm
      · rw [addPR_of_not_seen st a hs] at hm
        simp only [List.mem_append, List.mem_singleton] at hm
        rcases hm with hm | hm
        · exact Or.inl hm
        · subst hm; exact Or.inr (List.mem_cons_self _ _)
    · exact Or.inr (List.mem_cons_of_mem a hm)

lemma fetch_ok_shape (B : Backend) (repo term : String) (s e : Int)
    (prs : List PR) (count : Nat)
    (h : fetchPRsForDateRange B repo term s e = .ok (prs, count)) :
    count = prs.length := by
  unfold fetchPRsForDateRange at h
  cases hB : B repo term (dayOf s) (dayOf e) with
  | error msg => rw [hB] at h; simp at h
  | ok out =>
    rw [hB] at h
    simp only [Except.ok.injEq, Prod.mk.injEq] at h
    rw [← h.1, ← h.2]

lemma fetchRec_zero (B : Backend) (repo term : String) (s e : Int) (st : CollectState) :
    fetchRec B repo term 0 s e st
      = (st, some "maximum recursion depth reached for date range") := rfl

lemma fetchRec_error (B : Backend) (repo term : String) (r : Nat) (s e : Int)
    (st : CollectState) (msg : String)
    (hB : fetchPRsForDateRange B repo term s e = .error msg) :
    fetchRec B repo term (r + 1) s e st = (st, some ("error fetching PRs: " ++ msg)) := by
  simp only [fetchRec]
  rw [hB]

lemma fetchRec_small (B : Backend) (repo term : String) (r : Nat) (s e : Int)
    (st : CollectState) (prs : List PR)
    (hB : fetchPRsForDateRange B repo term s e = .ok (prs, prs.length))
    (hlt : prs.length < 1000) :
    fetchRec B repo term (r + 1) s e st = (addPRs st prs, none) := by
  simp only [fetchRec]
  rw [hB]
  simp only [if_neg (Nat.not_le.mpr hlt)]

lemma fetchRec_subday (B : Backend) (repo term : String) (r : Nat) (s e : Int)
    (st : CollectState) (prs : List PR)
    (hB : fetchPRsForDateRange B repo term s e = .ok (prs, prs.length))
    (hsat : 1000 ≤ prs.length) (hdur : e - s < nsPerDay) :
    fetchRec B repo term (r + 1) s e st = (addPRs st prs, none) := by
  simp only [fetchRec]
  rw [hB]
  simp only [if_pos hsat, if_pos hdur]

lemma fetchRec_split (B : Backend) (repo term : String) (r : Nat) (s e : Int)
    (st : CollectState) (prs : List PR)
    (hB : fetchPRsForDateRange B repo term s e = .ok (prs, prs.length))
    (hsat : 1000 ≤ prs.length) (hdur : nsPerDay ≤ e - s) :
    fetchRec B repo term (r + 1) s e st =
      (match fetchRec B repo term r s (s + Int.tdiv (e - s) 2) st with
       | (st2, some msg) => (st2, some msg)
       | (st2, none) =>
         fetchRec B repo term r (s + Int.tdiv (e - s) 2 + nsPerSecond) e st2) := by
  simp only [fetchRec]
  rw [hB]
  simp only [if_pos hsat, if_neg (by omega : ¬ (e - s < nsPerDay))]

lemma fetchRec_split_err (B : Backend) (repo term : String) (r : Nat) (s e : Int)
    (st st2 : CollectState) (prs : List PR) (msg : String)
    (hB : fetchPRsForDateRange B repo term s e = .ok (prs, prs.length))
    (hsat : 1000 ≤ prs.length) (hdur : nsPerDay ≤ e - s)
    (hrec : fetchRec B repo term r s (s + Int.tdiv (e - s) 2) st = (st2, some msg)) :
    fetchRec B repo term (r + 1) s e st = (st2, some msg) := by
  rw [fetchRec_split B repo term r s e st prs hB hsat hdur, hrec]

lemma fetchRec_split_ok (B : Backend) (repo term : String) (r : Nat) (s e : Int)
    (st st2 : CollectState) (prs : List PR)
    (hB : fetchPRsForDateRange B repo term s e = .ok (prs, prs.length))
    (hsat : 1000 ≤ prs.length) (hdur : nsPerDay ≤ e - s)
    (hrec : fetchRec B repo term r s (s + Int.tdiv (e - s) 2) st = (st2, none)) :
    fetchRec B repo term (r + 1) s e st
      = fetchRec B repo term r (s + Int.tdiv (e - s) 2 + nsPerSecond) e st2 := by
  rw [fetchRec_split B repo term r s e st prs hB hsat hdur, hrec]

lemma fetchRec_allPRs_append (B : Backend) (repo term : String) :
    ∀ (r : Nat) (s e : Int) (st : CollectState),
      ∃ tl, ((fetchRec B repo term r s e st).1).allPRs = st.allPRs ++ tl := by
  intro r
  induction r with
  | zero => intro s e st; exact ⟨[], by simp [fetchRec_zero]⟩
  | succ r ih =>
    intro s e st
    cases hB : fetchPRsForDateRange B repo term s e with
    | error msg =>
      exact ⟨[], by rw [fetchRec_error B repo term r s e st msg hB]; simp⟩
    | ok pc =>
      obtain ⟨prs, count⟩ := pc
      have hc := fetch_ok_shape B repo term s e prs count hB
      subst hc
      by_cases hsat : 1000 ≤ prs.length
      · by_cases hdur : e - s < nsPerDay
        · rw [fetchRec_subday B repo term r s e st prs hB hsat hdur]
          exact addPRs_allPRs_append st prs
        · have hdur2 : nsPerDay ≤ e - s := by omega
          rcases hrec : fetchRec B repo term r s (s + Int.tdiv (e - s) 2) st with ⟨st2, o⟩
          obtain ⟨t1, ht1⟩ := ih s (s + Int.tdiv (e - s) 2) st
          rw [hrec] at ht1
          cases o with
          | some msg =>
            rw [fetchRec_split_err B repo term r s e st st2 prs msg hB hsat hdur2 hrec]
            exact ⟨t1, ht1⟩
          | none =>
            rw [fetchRec_split_ok B repo term r s e st st2 prs hB hsat hdur2 hrec]
            obtain ⟨t2, ht2⟩ := ih (s + Int.tdiv (e - s) 2 + nsPerSecond) e st2
            exact ⟨t1 ++ t2, by rw [ht2, ht1, List.append_assoc]⟩
      · rw [fetchRec_small B repo term r s e st prs hB (Nat.not_le.mp hsat)]
        exact addPRs_allPRs_append st prs

lemma dedupInv_fetchRec (B : Backend) (repo term : String) :
    ∀ (r : Nat) (s e : Int) (st : CollectState), DedupInv st →
      DedupInv (fetchRec B repo term r s e st).1 := by
  intro r
  induction r with
  | zero => intro s e st h; exact h
  | succ r ih =>
    intro s e st h
    cases hB : fetchPRsForDateRange B repo term s e with
    | error msg =>
      rw [fetchRec_error B repo term r s e st msg hB]; exact h
    | ok pc =>
      obtain ⟨prs, count⟩ := pc
      have hc := fetch_ok_shape B repo term s e prs count hB
      subst hc
      by_cases hsat : 1000 ≤ prs.length
      · by_cases hdur : e - s < nsPerDay
        · rw [fetchRec_subday B repo term r s e st prs hB hsat hdur]
          exact dedupInv_addPRs st prs h
        · have hdur2 : nsPerDay ≤ e - s := by omega
          rcases hrec : fetchRec B repo term r s (s + Int.tdiv (e - s) 2) st with ⟨st2, o⟩
          have h2 : DedupInv st2 := by
            have := ih s (s + Int.tdiv (e - s) 2) st h
            rw [hrec] at this
            exact this
          cases o with
          | some msg =>
            rw [fetchRec_split_err B repo term r s e st st2 prs msg hB hsat hdur2 hrec]
            exact h2
          | none =>
            rw [fetchRec_split_ok B repo term r s e st st2 prs hB hsat hdur2 hrec]
            exact ih (s + Int.tdiv (e - s) 2 + nsPerSecond) e st2 h2
      · rw [fetchRec_small B repo term r s e st prs hB (Nat.not_le.mp hsat)]
        exact dedupInv_addPRs st prs h

lemma collectLoop_eq_foldl (B : Backend) (repo term : String) (now : Int) :
    ∀ (fuel : Nat) (s : Int) (st : CollectState),
      collectLoop B repo term now fuel s st
        = (monthWindows now fuel s).foldl (stepFetch B repo term) st := by
  intro fuel
  induction fuel with
  | zero => intro s st; rfl
  | succ f ih =>
    intro s st
    by_cases hs : s < now
    · simp only [collectLoop, monthWindows, if_pos hs, List.foldl_cons]
      exact ih (windowEnd now s) _
    · simp only [collectLoop, monthWindows, if_neg hs, List.foldl_nil]

lemma windowEnd_le (now s : Int) : windowEnd now s ≤ now ∨ windowEnd now s ≤ addOneMonth s := by
  unfold windowEnd
  split <;> omega

lemma windowEnd_le_now (now s : Int) : windowEnd now s ≤ now := by
  unfold windowEnd
  split <;> omega

lemma monthWindows_mem (now : Int) :
    ∀ (fuel : Nat) (s : Int), ∀ w ∈ monthWindows now fuel s,
      w.2 = windowEnd now w.1 ∧ w.1 < now := by
  intro fuel
  induction fuel with
  | zero => intro s w hw; simp [monthWindows] at hw
  | succ f ih =>
    intro s w hw
    by_cases hs : s < now
    · rw [monthWindows, if_pos hs] at hw
      rcases List.mem_cons.mp hw with hw | hw
      · subst hw; exact ⟨rfl, hs⟩
      · exact ih (windowEnd now s) w hw
    · rw [monthWindows, if_neg hs] at hw
      simp at hw

lemma monthWindows_head (now : Int) (fuel : Nat) (s : Int) :
    ∀ w ∈ (monthWindows now fuel s).head?, w.1 = s := by
  cases fuel with
  | zero => intro w hw; simp [monthWindows] at hw
  | succ f =>
    intro w hw
    by_cases hs : s < now
    · rw [monthWindows, if_pos hs] at hw
      simp only [List.head?_cons, Option.mem_def, Option.some.injEq] at hw
      rw [← hw]
    · rw [monthWindows, if_neg hs] at hw
      simp at hw

lemma monthWindows_chain (now : Int) :
    ∀ (fuel : Nat) (s : Int),
      List.Chain' (fun w w2 => w2.1 = w.2) (monthWindows now fuel s) := by
  intro fuel
  induction fuel with
  | zero => intro s; simp [monthWindows]
  | succ f ih =>
    intro s
    by_cases hs : s < now
    · rw [monthWindows, if_pos hs]
      refine List.chain'_cons'.mpr ⟨?_, ih (windowEnd now s)⟩
      intro w hw
      exact monthWindows_head now f (windowEnd now s) w hw
    · rw [monthWindows, if_neg hs]
      simp

lemma monthWindows_cover (now : Int) :
    ∀ (fuel : Nat) (s : Int),
      (monthWindows now fuel s).length < fuel → ∀ t : Int, s ≤ t → t < now →
      ∃ w ∈ monthWindows now fuel s, w.1 ≤ t ∧ t < w.2 := by
  intro fuel
  induction fuel with
  | zero => intro s h; simp at h
  | succ f ih =>
    intro s hlen t hst htn
    have hs : s < now := lt_of_le_of_lt hst htn
    rw [monthWindows, if_pos hs] at hlen ⊢
    by_cases hte : t < windowEnd now s
    · exact ⟨(s, windowEnd now s), List.mem_cons_self _ _, hst, hte⟩
    · have hwle : windowEnd now s ≤ t := not_lt.mp hte
      have hlen2 : (monthWindows now f (windowEnd now s)).length < f := by
        simpa using hlen
      obtain ⟨w, hw, hw2⟩ := ih (windowEnd now s) hlen2 t hwle htn
      exact ⟨w, List.mem_cons_of_mem _ hw, hw2⟩

lemma stepFetch_allPRs_append (B : Backend) (repo term : String)
    (st : CollectState) (w : Int × Int) :
    ∃ tl, (stepFetch B repo term st w).allPRs = st.allPRs ++ tl :=
  fetchRec_allPRs_append B repo term (11 - 0) w.1 w.2 st

lemma dedupInv_stepFetch (B : Backend) (repo term : String)
    (st : CollectState) (w : Int × Int) (h : DedupInv st) :
    DedupInv (stepFetch B repo term st w) :=
  dedupInv_fetchRec B repo term (11 - 0) w.1 w.2 st h

lemma dedupInv_foldl_stepFetch (B : Backend) (repo term : String)
    (W : List (Int × Int)) (st : CollectState) (h : DedupInv st) :
    DedupInv (W.foldl (stepFetch B repo term) st) := by
  induction W generalizing st with
  | nil => exact h
  | cons w W ih =>
    simp only [List.foldl_cons]
    exact ih _ (dedupInv_stepFetch B repo term st w h)

lemma foldl_stepFetch_allPRs_append (B : Backend) (repo term : String)
    (W : List (Int × Int)) (st : CollectState) :
    ∃ tl, (W.foldl (stepFetch B repo term) st).allPRs = st.allPRs ++ tl := by
  induction W generalizing st with
  | nil => exact ⟨[], by simp⟩
  | cons w W ih =>
    simp only [List.foldl_cons]
    obtain ⟨t1, ht1⟩ := stepFetch_allPRs_append B repo term st w
    obtain ⟨t2, ht2⟩ := ih (stepFetch B repo term st w)
    exact ⟨t1 ++ t2, by rw [ht2, ht1, List.append_assoc]⟩

lemma dedupInv_collectLoop (B : Backend) (repo term : String)
    (now : Int) (fuel : Nat) (s : Int) (st : CollectState) (h : DedupInv st) :
    DedupInv (collectLoop B repo term now fuel s st) := by
  rw [collectLoop_eq_foldl]
  exact dedupInv_foldl_stepFetch B repo term _ st h

lemma fetchRec_failing (msg repo term : String) :
    ∀ (r : Nat) (s e : Int) (st : CollectState),
      (fetchRec (fun _ _ _ _ => .error msg) repo term r s e st).1 = st := by
  intro r
  cases r with
  | zero => intro s e st; rfl
  | succ r =>
    intro s e st
    rw [fetchRec_error (fun _ _ _ _ => .error msg) repo term r s e st msg rfl]

lemma dedupInv_foldl_addPRs (resp : Int × Int → List PR)
    (W : List (Int × Int)) (st : CollectState) (h : DedupInv st) :
    DedupInv (W.foldl (fun st w => addPRs st (resp w)) st) := by
  induction W generalizing st with
  | nil => exact h
  | cons w W ih =>
    simp only [List.foldl_cons]
    exact ih _ (dedupInv_addPRs st (resp w) h)

lemma mem_urls_foldl_addPRs (resp : Int × Int → List PR)
    (W : List (Int × Int)) (st : CollectState) (u : String) (h : DedupInv st) :
    u ∈ urls (W.foldl (fun st w => addPRs st (resp w)) st)
      ↔ u ∈ urls st ∨ ∃ w ∈ W, u ∈ (resp w).map PR.URL := by
  induction W generalizing st with
  | nil => simp
  | cons w W ih =>
    simp only [List.foldl_cons]
    rw [ih (addPRs st (resp w)) (dedupInv_addPRs st (resp w) h),
      mem_urls_addPRs st (resp w) u h]
    simp only [List.mem_cons]
    constructor
    · rintro ((hu | hu) | ⟨w2, hw2, hu⟩)
      · exact Or.inl hu
      · exact Or.inr ⟨w, Or.inl rfl, hu⟩
      · exact Or.inr ⟨w2, Or.inr hw2, hu⟩
    · rintro (hu | ⟨w2, (hw2 | hw2), hu⟩)
      · exact Or.inl (Or.inl hu)
      · subst hw2; exact Or.inl (Or.inr hu)
      · exact Or.inr ⟨w2, hw2, hu⟩

lemma foldl_addPRs_mem_src (resp : Int × Int → List PR)
    (W : List (Int × Int)) (st : CollectState) (pr : PR)
    (h : pr ∈ (W.foldl (fun st w => addPRs st (resp w)) st).allPRs) :
    pr ∈ st.allPRs ∨ ∃ w ∈ W, pr ∈ resp w := by
  induction W generalizing st with
  | nil => exact Or.inl h
  | cons w W ih =>
    simp only [List.foldl_cons] at h
    rcases ih (addPRs st (resp w)) h with hm | ⟨w2, hw2, hm⟩
    · rcases addPRs_mem_src st (resp w) pr hm with hm | hm
      · exact Or.inl hm
      · exact Or.inr ⟨w, List.mem_cons_self _ _, hm⟩
    · exact Or.inr ⟨w2, List.mem_cons_of_mem _ hw2, hm⟩

lemma parsePRs_replicate (n : Nat) (row : String) (pr : PR)
    (h : parseLine row = some pr) :
    parsePRs (List.replicate n row) = List.replicate n pr := by
  induction n with
  | zero => rfl
  | succ n ih => simp [parsePRs, List.replicate_succ, h, ih]

lemma collectLoop_failing (msg repo term : String) (now : Int) :
    ∀ (fuel : Nat) (s : Int) (st : CollectState),
      collectLoop (fun _ _ _ _ => .error msg) repo term now fuel s st = st := by
  intro fuel
  induction fuel with
  | zero => intro s st; rfl
  | succ f ih =>
    intro s st
    by_cases hs : s < now
    · simp only [collectLoop, if_pos hs]
      have h1 : stepFetch (fun _ _ _ _ => .error msg) repo term st (s, windowEnd now s) = st :=
        fetchRec_failing msg repo term 11 s (windowEnd now s) st
      rw [h1]
      exact ih (windowEnd now s) st
    · simp only [collectLoop, if_neg hs]

/-- Claim C10 (confirmed): the deduplication key enforced by the collector
is the record's URL: the empty starting state satisfies the dedup invariant
(the accumulated URLs are pairwise distinct and coincide exactly with the
seen set), each single-record admission preserves it, a fetched record is
kept unchanged exactly when its URL is already seen and is appended with its
URL marked seen otherwise, every recursive fetch preserves the invariant,
and the whole collection loop establishes it from the empty state. -/
theorem spec_C10 :
    DedupInv ⟨[], []⟩
    ∧ (∀ (st : CollectState) (pr : PR), DedupInv st → DedupInv (addPR st pr))
    ∧ (∀ (st : CollectState) (pr : PR), pr.URL ∈ st.seenPRs → addPR st pr = st)
    ∧ (∀ (st : CollectState) (pr : PR), pr.URL ∉ st.seenPRs →
        (addPR st pr).allPRs = st.allPRs ++ [pr]
          ∧ (addPR st pr).seenPRs = pr.URL :: st.seenPRs)
    ∧ (∀ (B : Backend) (repo term : String) (r : Nat) (s e : Int) (st : CollectState),
        DedupInv st → DedupInv (fetchRec B repo term r s e st).1)
    ∧ (∀ (B : Backend) (repo term : String) (since now : Int) (fuel : Nat),
        DedupInv (collectLoop B repo term now fuel since ⟨[], []⟩)) := by
  refine ⟨dedupInv_empty, ?_, ?_, ?_, ?_, ?_⟩
  · intro st pr h; exact dedupInv_addPR st pr h
  · intro st pr h; exact addPR_of_seen st pr h
  · intro st pr h
    rw [addPR_of_not_seen st pr h]
    exact ⟨rfl, rfl⟩
  · intro B repo term r s e st h; exact dedupInv_fetchRec B repo term r s e st h
  · intro B repo term since now fuel
    exact dedupInv_collectLoop B repo term now fuel since ⟨[], []⟩ dedupInv_empty

/-- Witness for C10: a concrete duplicate-URL record is discarded by the
admission step. -/
theorem spec_C10_witness :
    addPR ⟨["u"], [⟨"1", "a", "m", "u"⟩]⟩ ⟨"2", "b", "m2", "u"⟩
      = ⟨["u"], [⟨"1", "a", "m", "u"⟩]⟩ :=
  spec_C10.2.2.1 _ _ (by decide)

/-- Claim C1 as frozen is refuted by `spec_C1_counterexample`: the enforced
dedup key is the URL, not the PR number.  Amended claim (proved here): within
one collection run, no two entries of the returned result share the same
URL — the actual dedup key — and every record is admitted at most once by
URL, for every backend, window layout and fuel. -/
theorem spec_C1 (B : Backend) (repo term : String) (since now : Int) (fuel : Nat) :
    ((getMergedPRs B repo term since now fuel).1.map PR.URL).Nodup
    ∧ ∀ u : String, ((getMergedPRs B repo term since now fuel).1.map PR.URL).count u ≤ 1 := by
  have h := dedupInv_collectLoop B repo term now fuel since ⟨[], []⟩ dedupInv_empty
  constructor
  · exact h.1
  · intro u
    exact List.nodup_iff_count_le_one.mp h.1 u

/-- Counterexample to claim C1 as frozen: a backend answering one window
with two well-formed records that share the PR number "7" but differ in URL
produces a result in which the identifier (`Number`) "7" occurs twice, so
the result-set entries are not pairwise distinct by `Number`. -/
theorem spec_C1_counterexample :
    ((getMergedPRs sameNumberBackend "r" "" 0 nsPerDay 1).1.map PR.Number = ["7", "7"])
    ∧ ¬ ((getMergedPRs sameNumberBackend "r" "" 0 nsPerDay 1).1.map PR.Number).Nodup := by
  constructor
  · decide
  · decide

/-- Claim C4 (confirmed): recursion is bounded by the fixed maximum depth
10 — any call at depth greater than 10 returns the recursion-limit error at
once, leaving the state untouched; the monthly loop continues with the
next window whatever the window's outcome, keeping the state the failing
window produced; and the recursive fetch only ever appends to the
accumulated result, so records admitted before the failure (by this window
or by earlier ones) remain admitted. -/
theorem spec_C4 :
    (∀ (B : Backend) (repo term : String) (s e : Int) (st : CollectState) (depth : Nat),
      10 < depth →
      fetchPRsRecursive B repo term s e st depth
        = (st, some "maximum recursion depth reached for date range"))
    ∧ (∀ (B : Backend) (repo term : String) (now : Int) (fuel : Nat) (s : Int)
        (st : CollectState), s < now →
        collectLoop B repo term now (fuel + 1) s st
          = collectLoop B repo term now fuel (windowEnd now s)
              (stepFetch B repo term st (s, windowEnd now s)))
    ∧ (∀ (B : Backend) (repo term : String) (r : Nat) (s e : Int) (st : CollectState),
        ∃ tl, ((fetchRec B repo term r s e st).1).allPRs = st.allPRs ++ tl) := by
  refine ⟨?_, ?_, ?_⟩
  · intro B repo term s e st depth hd
    unfold fetchPRsRecursive
    have hz : 11 - depth = 0 := by omega
    rw [hz]
    exact fetchRec_zero B repo term s e st
  · intro B repo term now fuel s st hs
    simp only [collectLoop, if_pos hs]
  · intro B repo term r s e st
    exact fetchRec_allPRs_append B repo term r s e st

/-- Witness for C4: at depth 11 the recursion-limit error is raised with
the state untouched, and a loop step at a concrete window proceeds to the
rest of the loop. -/
theorem spec_C4_witness :
    (fetchPRsRecursive emptyBackend "r" "" 0 nsPerDay ⟨[], []⟩ 11
      = (⟨[], []⟩, some "maximum recursion depth reached for date range"))
    ∧ collectLoop emptyBackend "r" "" nsPerDay 1 0 ⟨[], []⟩
        = collectLoop emptyBackend "r" "" nsPerDay 0 (windowEnd nsPerDay 0)
            (stepFetch emptyBackend "r" "" ⟨[], []⟩ (0, windowEnd nsPerDay 0)) :=
  ⟨spec_C4.1 emptyBackend "r" "" 0 nsPerDay ⟨[], []⟩ 11 (by decide),
   spec_C4.2.1 emptyBackend "r" "" nsPerDay 0 0 ⟨[], []⟩ (by decide)⟩

/-- Claim C5 (confirmed): the monthly loop is exactly a fold of the
per-window step over the full window list — a window's error never aborts
it, since the step keeps only the state and the loop visits every window —
and both a single window step and the whole fold only append to the
accumulated records, so records admitted from other windows are preserved
in the final result. -/
theorem spec_C5 :
    (∀ (B : Backend) (repo term : String) (now : Int) (fuel : Nat) (s : Int)
        (st : CollectState),
      collectLoop B repo term now fuel s st
        = (monthWindows now fuel s).foldl (stepFetch B repo term) st)
    ∧ (∀ (B : Backend) (repo term : String) (st : CollectState) (w : Int × Int),
        ∃ tl, (stepFetch B repo term st w).allPRs = st.allPRs ++ tl)
    ∧ (∀ (B : Backend) (repo term : String) (W : List (Int × Int)) (st : CollectState),
        ∃ tl, (W.foldl (stepFetch B repo term) st).allPRs = st.allPRs ++ tl) :=
  ⟨fun B repo term now fuel s st => collectLoop_eq_foldl B repo term now fuel s st,
   fun B repo term st w => stepFetch_allPRs_append B repo term st w,
   fun B repo term W st => foldl_stepFetch_allPRs_append B repo term W st⟩

/-- Claim C9 (confirmed): getMergedPRs returns a nil error on every input
and for every backend behaviour — in particular, with a backend failing on
every query it still returns an (empty) result and a nil error. -/
theorem spec_C9 :
    (∀ (B : Backend) (repo term : String) (since now : Int) (fuel : Nat),
      (getMergedPRs B repo term since now fuel).2 = none)
    ∧ (∀ (msg repo term : String) (since now : Int) (fuel : Nat),
      getMergedPRs (fun _ _ _ _ => .error msg) repo term since now fuel = ([], none)) := by
  constructor
  · intro B repo term since now fuel; rfl
  · intro msg repo term since now fuel
    unfold getMergedPRs
    rw [collectLoop_failing msg repo term now fuel since ⟨[], []⟩]

/-- Claim C2 (confirmed): when every monthly window's fetch succeeds with a
count strictly below the 1000 cap, every window resolves in a single
fetch-and-admit step with no bisection and no error, the whole run equals
the plain fold of those admissions, and the final result is exactly the
deduplicated union of the windows' records: its URLs are pairwise distinct,
every returned record was fetched by some window, and every fetched record
is represented in the result by its URL — no record is dropped. -/
theorem spec_C2 (B : Backend) (repo term : String) (since now : Int) (fuel : Nat)
    (resp : Int × Int → List PR)
    (hresp : ∀ w ∈ monthWindows now fuel since,
      fetchPRsForDateRange B repo term w.1 w.2 = .ok (resp w, (resp w).length)
        ∧ (resp w).length < 1000) :
    (∀ w ∈ monthWindows now fuel since, ∀ st : CollectState,
        fetchPRsRecursive B repo term w.1 w.2 st 0 = (addPRs st (resp w), none))
    ∧ (getMergedPRs B repo term since now fuel).1
        = ((monthWindows now fuel since).foldl
            (fun st w => addPRs st (resp w)) ⟨[], []⟩).allPRs
    ∧ ((getMergedPRs B repo term since now fuel).1.map PR.URL).Nodup
    ∧ (∀ pr ∈ (getMergedPRs B repo term since now fuel).1,
        ∃ w ∈ monthWindows now fuel since, pr ∈ resp w)
    ∧ (∀ w ∈ monthWindows now fuel since, ∀ pr ∈ resp w,
        ∃ pr2 ∈ (getMergedPRs B repo term since now fuel).1, pr2.URL = pr.URL) := by
  have hstep : ∀ w ∈ monthWindows now fuel since, ∀ st : CollectState,
      fetchPRsRecursive B repo term w.1 w.2 st 0 = (addPRs st (resp w), none) := by
    intro w hw st
    obtain ⟨h1, h2⟩ := hresp w hw
    unfold fetchPRsRecursive
    have he : (11 - 0 : Nat) = 10 + 1 := rfl
    rw [he]
    exact fetchRec_small B repo term 10 w.1 w.2 st (resp w) h1 h2
  have hfold : (getMergedPRs B repo term since now fuel).1
      = ((monthWindows now fuel since).foldl
          (fun st w => addPRs st (resp w)) ⟨[], []⟩).allPRs := by
    unfold getMergedPRs
    rw [collectLoop_eq_foldl]
    have hext : (monthWindows now fuel since).foldl (stepFetch B repo term) ⟨[], []⟩
        = (monthWindows now fuel since).foldl (fun st w => addPRs st (resp w)) ⟨[], []⟩ := by
      apply List.foldl_ext
      intro st w hw
      have h := hstep w hw st
      simp only [stepFetch, h]
    rw [hext]
  refine ⟨hstep, hfold, ?_, ?_, ?_⟩
  · rw [hfold]
    have h := dedupInv_foldl_addPRs resp (monthWindows now fuel since) ⟨[], []⟩ dedupInv_empty
    exact h.1
  · intro pr hpr
    rw [hfold] at hpr
    rcases foldl_addPRs_mem_src resp _ ⟨[], []⟩ pr hpr with hm | hm
    · simp at hm
    · exact hm
  · intro w hw pr hpr
    have hu : pr.URL ∈ urls ((monthWindows now fuel since).foldl
        (fun st w => addPRs st (resp w)) ⟨[], []⟩) := by
      rw [mem_urls_foldl_addPRs resp _ ⟨[], []⟩ pr.URL dedupInv_empty]
      exact Or.inr ⟨w, hw, List.mem_map_of_mem PR.URL hpr⟩
    rw [hfold]
    obtain ⟨pr2, hpr2, hurl⟩ := List.mem_map.mp hu
    exact ⟨pr2, hpr2, hurl⟩

/-- Witness for C2: a concrete single-record backend run admits the record
into the result. -/
theorem spec_C2_witness :
    ∃ pr2 ∈ (getMergedPRs singleRowBackend "r" "" 0 nsPerDay 1).1,
      pr2.URL = "u1" := by
  have hW : monthWindows nsPerDay 1 0 = [(0, nsPerDay)] := by decide
  have h := spec_C2 singleRowBackend "r" "" 0 nsPerDay 1
    (fun _ => [⟨"1", "a", "m", "u1"⟩]) ?_
  · obtain ⟨pr2, hpr2, hurl⟩ := h.2.2.2.2 (0, nsPerDay)
      (by rw [hW]; exact List.mem_cons_self _ _)
      ⟨"1", "a", "m", "u1"⟩ (List.mem_cons_self _ _)
    exact ⟨pr2, hpr2, hurl⟩
  · intro w hw
    rw [hW] at hw
    have hw2 := List.mem_singleton.mp hw
    subst hw2
    exact ⟨rfl, by decide⟩

/-- Claim C8 (confirmed): a saturated window whose duration is below one
day is not split: the recursive fetch admits all returned records through
the normal URL dedup rule and returns without error (the incompleteness
warning is only printed). -/
theorem spec_C8 (B : Backend) (repo term : String) (s e : Int) (st : CollectState)
    (depth : Nat) (prs : List PR)
    (hdepth : depth ≤ 10)
    (hB : fetchPRsForDateRange B repo term s e = .ok (prs, prs.length))
    (hsat : 1000 ≤ prs.length)
    (hdur : e - s < nsPerDay) :
    fetchPRsRecursive B repo term s e st depth = (addPRs st prs, none) := by
  unfold fetchPRsRecursive
  have hbud : 11 - depth = (10 - depth) + 1 := by omega
  rw [hbud]
  exact fetchRec_subday B repo term (10 - depth) s e st prs hB hsat hdur

/-- Witness for C8: a concrete backend saturating a sub-day window; the
1000 records are admitted and no error is raised. -/
theorem spec_C8_witness :
    fetchPRsRecursive saturatedBackend "r" "" 0 (nsPerDay - 1) ⟨[], []⟩ 0
      = (addPRs ⟨[], []⟩ (List.replicate 1000 ⟨"9", "t", "m", "u9"⟩), none) := by
  have hL := parsePRs_replicate 1000 "9\tt\tm\tu9" ⟨"9", "t", "m", "u9"⟩ (by decide)
  have hB : fetchPRsForDateRange saturatedBackend "r" "" 0 (nsPerDay - 1)
      = .ok (parsePRs (List.replicate 1000 "9\tt\tm\tu9"),
             (parsePRs (List.replicate 1000 "9\tt\tm\tu9")).length) := rfl
  rw [hL] at hB
  exact spec_C8 saturatedBackend "r" "" 0 (nsPerDay - 1) ⟨[], []⟩ 0 _
    (by decide) hB (by simp only [List.length_replicate]; omega) (by decide)

/-- Claim C6 (confirmed): a saturated window of at least one day is split
exactly at the midpoint `start + duration/2`: the collector first recurses
on `[windowStart, midpoint]` at `depth+1` — propagating its error and state
if it fails — and then on `[midpoint + 1 second, windowEnd]` at `depth+1`
on the updated state, and no time instant lies in both sub-windows. -/
theorem spec_C6 (B : Backend) (repo term : String) (s e : Int) (st : CollectState)
    (depth : Nat) (prs : List PR) (mid : Int)
    (hdepth : depth ≤ 10)
    (hB : fetchPRsForDateRange B repo term s e = .ok (prs, prs.length))
    (hsat : 1000 ≤ prs.length)
    (hdur : nsPerDay ≤ e - s)
    (hmid : mid = s + Int.tdiv (e - s) 2) :
    (∀ (st2 : CollectState) (msg : String),
        fetchPRsRecursive B repo term s mid st (depth + 1) = (st2, some msg) →
        fetchPRsRecursive B repo term s e st depth = (st2, some msg))
    ∧ (∀ st2 : CollectState,
        fetchPRsRecursive B repo term s mid st (depth + 1) = (st2, none) →
        fetchPRsRecursive B repo term s e st depth
          = fetchPRsRecursive B repo term (mid + nsPerSecond) e st2 (depth + 1))
    ∧ (∀ t : Int, ¬ (t ≤ mid ∧ mid + nsPerSecond ≤ t)) := by
  subst hmid
  have hbud : 11 - depth = (11 - (depth + 1)) + 1 := by omega
  refine ⟨?_, ?_, ?_⟩
  · intro st2 msg hrec
    unfold fetchPRsRecursive at hrec ⊢
    rw [hbud]
    exact fetchRec_split_err B repo term (11 - (depth + 1)) s e st st2 prs msg
      hB hsat hdur hrec
  · intro st2 hrec
    unfold fetchPRsRecursive at hrec ⊢
    rw [hbud]
    exact fetchRec_split_ok B repo term (11 - (depth + 1)) s e st st2 prs
      hB hsat hdur hrec
  · intro t ht
    have hpos : (0 : Int) < nsPerSecond := by norm_num [nsPerSecond]
    omega

/-- Witness for C6: a concrete saturated two-day window whose first half
fails; the failure and the untouched state propagate out of the split. -/
theorem spec_C6_witness :
    fetchPRsRecursive c6Backend "r" "" 0 (2 * nsPerDay) ⟨[], []⟩ 0
      = (⟨[], []⟩, some "error fetching PRs: boom") := by
  have hL := parsePRs_replicate 1000 "9\tt\tm\tu9" ⟨"9", "t", "m", "u9"⟩ (by decide)
  have hB : fetchPRsForDateRange c6Backend "r" "" 0 (2 * nsPerDay)
      = .ok (parsePRs (List.replicate 1000 "9\tt\tm\tu9"),
             (parsePRs (List.replicate 1000 "9\tt\tm\tu9")).length) := rfl
  rw [hL] at hB
  have h := spec_C6 c6Backend "r" "" 0 (2 * nsPerDay) ⟨[], []⟩ 0
    (List.replicate 1000 ⟨"9", "t", "m", "u9"⟩) (0 + Int.tdiv (2 * nsPerDay - 0) 2)
    (by decide) hB (by simp only [List.length_replicate]; omega) (by decide) rfl
  exact h.1 ⟨[], []⟩ "error fetching PRs: boom" rfl

/-- Claim C7 (confirmed): getMergedPRs partitions the span from the start
date to now into successive windows — each window starts before `now`, its
end is one calendar month after its start truncated to `now`, the first
window starts at the start date, and each window starts where the previous
one ended — it invokes the per-window fetch exactly once per window (the
run is the fold of the per-window step over this window list), and, when
the loop has fuel to terminate, every instant of `[sinceDate, now)` is
covered by some window. -/
theorem spec_C7 (B : Backend) (repo term : String) (sinceDate now : Int) (fuel : Nat) :
    ((getMergedPRs B repo term sinceDate now fuel).1
        = ((monthWindows now fuel sinceDate).foldl (stepFetch B repo term)
            ⟨[], []⟩).allPRs)
    ∧ (∀ w ∈ monthWindows now fuel sinceDate, w.2 = windowEnd now w.1 ∧ w.1 < now)
    ∧ (∀ w ∈ (monthWindows now fuel sinceDate).head?, w.1 = sinceDate)
    ∧ List.Chain' (fun w w2 => w2.1 = w.2) (monthWindows now fuel sinceDate)
    ∧ ((monthWindows now fuel sinceDate).length < fuel →
        ∀ t : Int, sinceDate ≤ t → t < now →
          ∃ w ∈ monthWindows now fuel sinceDate, w.1 ≤ t ∧ t < w.2) := by
  refine ⟨?_, monthWindows_mem now fuel sinceDate, monthWindows_head now fuel sinceDate,
    monthWindows_chain now fuel sinceDate, monthWindows_cover now fuel sinceDate⟩
  unfold getMergedPRs
  rw [collectLoop_eq_foldl]

/-- Witness for C7: over a concrete 40-day span starting at the epoch the
window list is fully computed and covers the instant at day 35. -/
theorem spec_C7_witness :
    ∃ w ∈ monthWindows (40 * nsPerDay) 3 0, w.1 ≤ 35 * nsPerDay ∧ 35 * nsPerDay < w.2 :=
  (spec_C7 emptyBackend "r" "" 0 (40 * nsPerDay) 3).2.2.2.2 (by decide)
    (35 * nsPerDay) (by decide) (by decide)

/-- Claim C3 (confirmed): when a saturated window `[s, e]` is bisected at
the midpoint and both halves resolve in one fetch each, a record of the
underlying database whose true merge instant equals the midpoint boundary
is attributed to exactly one place in the final result: its URL occurs
exactly once and the run raises no error.  The first sub-query honestly
answers at the day granularity the source formats its dates with, so the
midpoint record is fetched there (no omission), and the URL dedup rule
absorbs any second copy from the other half (no double count). -/
theorem spec_C3 (B : Backend) (repo term : String) (s e mid : Int)
    (db L0 L1 L2 : List PR) (mt : PR → Int) (r : PR)
    (hdur : nsPerDay ≤ e - s)
    (hmid : mid = s + Int.tdiv (e - s) 2)
    (h0 : fetchPRsForDateRange B repo term s e = .ok (L0, L0.length))
    (hsat : 1000 ≤ L0.length)
    (h1 : fetchPRsForDateRange B repo term s mid = .ok (L1, L1.length))
    (h1small : L1.length < 1000)
    (h2 : fetchPRsForDateRange B repo term (mid + nsPerSecond) e = .ok (L2, L2.length))
    (h2small : L2.length < 1000)
    (hhonest : ∀ pr : PR,
      pr ∈ L1 ↔ pr ∈ db ∧ dayOf s ≤ dayOf (mt pr) ∧ dayOf (mt pr) ≤ dayOf mid)
    (hr : r ∈ db) (hrmid : mt r = mid) :
    (((fetchPRsRecursive B repo term s e ⟨[], []⟩ 0).1.allPRs.map PR.URL).count r.URL = 1)
    ∧ (fetchPRsRecursive B repo term s e ⟨[], []⟩ 0).2 = none := by
  subst hmid
  have hpos : (0 : Int) < nsPerDay := by norm_num [nsPerDay, nsPerSecond]
  have hsmid : s ≤ s + Int.tdiv (e - s) 2 := by
    have h : 0 ≤ Int.tdiv (e - s) 2 := Int.tdiv_nonneg (by omega) (by norm_num)
    omega
  have hrL1 : r ∈ L1 := by
    rw [hhonest r]
    refine ⟨hr, ?_, ?_⟩
    · rw [hrmid]
      exact Int.ediv_le_ediv hpos hsmid
    · rw [hrmid]
  have hrec1 : fetchRec B repo term 10 s (s + Int.tdiv (e - s) 2) ⟨[], []⟩
      = (addPRs ⟨[], []⟩ L1, none) := by
    have h10 : (10 : Nat) = 9 + 1 := rfl
    rw [h10]
    exact fetchRec_small B repo term 9 s (s + Int.tdiv (e - s) 2) ⟨[], []⟩ L1 h1 h1small
  have hrec2 : fetchRec B repo term 10 (s + Int.tdiv (e - s) 2 + nsPerSecond) e
      (addPRs ⟨[], []⟩ L1) = (addPRs (addPRs ⟨[], []⟩ L1) L2, none) := by
    have h10 : (10 : Nat) = 9 + 1 := rfl
    rw [h10]
    exact fetchRec_small B repo term 9 (s + Int.tdiv (e - s) 2 + nsPerSecond) e
      (addPRs ⟨[], []⟩ L1) L2 h2 h2small
  have hrun : fetchPRsRecursive B repo term s e ⟨[], []⟩ 0
      = (addPRs (addPRs ⟨[], []⟩ L1) L2, none) := by
    unfold fetchPRsRecursive
    have hbud : (11 - 0 : Nat) = 10 + 1 := rfl
    rw [hbud]
    rw [fetchRec_split B repo term 10 s e ⟨[], []⟩ L0 h0 hsat hdur]
    rw [hrec1]
    exact hrec2
  rw [hrun]
  have hinv1 : DedupInv (addPRs ⟨[], []⟩ L1) := dedupInv_addPRs ⟨[], []⟩ L1 dedupInv_empty
  have hinv : DedupInv (addPRs (addPRs ⟨[], []⟩ L1) L2) := dedupInv_addPRs _ L2 hinv1
  constructor
  · have hmem : r.URL ∈ urls (addPRs (addPRs ⟨[], []⟩ L1) L2) := by
      rw [mem_urls_addPRs _ L2 r.URL hinv1]
      left
      rw [mem_urls_addPRs _ L1 r.URL dedupInv_empty]
      right
      exact List.mem_map_of_mem PR.URL hrL1
    exact List.count_eq_one_of_mem hinv.1 hmem
  · rfl

/-- Witness for C3: a concrete bisected 40-day window whose single record
is merged exactly at the computed midpoint instant; it ends up in the
result exactly once and the run reports no error. -/
theorem spec_C3_witness :
    (((fetchPRsRecursive midSplitBackend "r" "" 0 (40 * nsPerDay) ⟨[], []⟩ 0).1.allPRs.map
        PR.URL).count "u1" = 1)
    ∧ (fetchPRsRecursive midSplitBackend "r" "" 0 (40 * nsPerDay) ⟨[], []⟩ 0).2 = none := by
  have hL := parsePRs_replicate 1000 "9\tt\tm\tu9" ⟨"9", "t", "m", "u9"⟩ (by decide)
  have h0 : fetchPRsForDateRange midSplitBackend "r" "" 0 (40 * nsPerDay)
      = .ok (parsePRs (List.replicate 1000 "9\tt\tm\tu9"),
             (parsePRs (List.replicate 1000 "9\tt\tm\tu9")).length) := rfl
  rw [hL] at h0
  have h := spec_C3 midSplitBackend "r" "" 0 (40 * nsPerDay)
    (0 + Int.tdiv (40 * nsPerDay - 0) 2)
    [⟨"1", "t", "m", "u1"⟩] (List.replicate 1000 ⟨"9", "t", "m", "u9"⟩)
    [⟨"1", "t", "m", "u1"⟩] [] (fun _ => 0 + Int.tdiv (40 * nsPerDay - 0) 2)
    ⟨"1", "t", "m", "u1"⟩
    (by decide) rfl h0 (by simp only [List.length_replicate]; omega)
    rfl (by decide) rfl (by decide)
    (by
      intro pr
      constructor
      · intro hpr
        refine ⟨hpr, ?_, ?_⟩
        · exact (by decide : dayOf 0 ≤ dayOf (0 + Int.tdiv (40 * nsPerDay - 0) 2))
        · exact (by decide :
            dayOf (0 + Int.tdiv (40 * nsPerDay - 0) 2)
              ≤ dayOf (0 + Int.tdiv (40 * nsPerDay - 0) 2))
      · intro hpr
        exact hpr.1)
    (List.mem_cons_self _ _) rfl
  exact h
